import Mathlib

/-!
Verification development for the browser-use-ts repository.

This file gives a shallow embedding of the parts of the code that the
checked properties are about:

* the message-history / message-manager token accounting
  (src/agent/message_manager/views.ts and service.ts),
* the DOM snapshot builder and element serializer
  (src/dom/service.ts `constructDomTree` and the DOM views
  `clickableElementsToString`),
* the agent step engine (`step`, `multiAct`, `getNextAction` post-parse
  handling, `_raiseIfStoppedOrPaused`).

JavaScript numbers used as token counters are modelled as `Int`
(they are integer-valued everywhere in the code, but can go negative);
the floating-point divisions in `cutMessages` are modelled over `ℚ`.
Asynchronous environment interactions (page snapshots, the LLM call,
the external pause callback, the controller) are modelled as explicit
environment records supplying the value each call returns.
-/

namespace BrowserUse

/-! ## JavaScript helpers

Small functions reproducing the JavaScript semantics the code relies on:
association-object get/set (insertion order preserved, assignment to an
existing key updates in place), `Array.prototype.splice` insertion with a
possibly negative position, `String.prototype.substring` clamping, and
truthiness of the result fields involved. -/

/-- Lookup in an insertion-ordered association list (JS `obj[key]`). -/
def assocGet {α : Type} (l : List (String × α)) (k : String) : Option α :=
  (l.find? (fun p => p.1 = k)).map (·.2)

/-- Assignment in an insertion-ordered association list (JS `obj[key] = v`):
an existing key keeps its position and gets the new value, a new key is
appended at the end. -/
def assocSet {α : Type} : List (String × α) → String → α → List (String × α)
  | [], k, v => [(k, v)]
  | (k', v') :: rest, k, v =>
    if k' = k then (k, v) :: rest else (k', v') :: assocSet rest k v

/-- Insert an element at a (already clamped) natural position. -/
def insertAtNat {α : Type} : Nat → List α → α → List α
  | 0, l, x => x :: l
  | _ + 1, [], x => [x]
  | n + 1, y :: l, x => y :: insertAtNat n l x

/-- The clamped start position of JS `arr.splice(pos, ...)`: a negative
position counts from the end, out-of-range positions are clamped. -/
def jsSpliceStart (pos : Int) (len : Nat) : Nat :=
  if pos < 0 then (max 0 ((len : Int) + pos)).toNat
  else (min pos (len : Int)).toNat

/-- JS `arr.splice(pos, 0, x)`. -/
def jsSpliceInsert {α : Type} (l : List α) (pos : Int) (x : α) : List α :=
  insertAtNat (jsSpliceStart pos l.length) l x

/-- JS `str.substring(0, e)` end index clamped into `[0, len]`. -/
def jsClampIdx (e : Int) (len : Nat) : Nat :=
  (max 0 (min e (len : Int))).toNat

/-- JS truthiness of a `boolean | null` field: only `true` is truthy. -/
def jsTruthyBool : Option Bool → Bool
  | some true => true
  | _ => false

/-- JS truthiness of a `string | null | undefined` field: a non-empty
string is truthy, `null`/`undefined`/`""` are falsy. -/
def jsTruthyStr : Option String → Bool
  | some s => !s.isEmpty
  | none => false

/-! ## Message model (message_manager/views.ts)

`BaseMessage` carries the role tag, the content (a plain string or the
array-of-items form used for vision messages), and, for AI messages, the
serialized JSON of each tool call's arguments (only the length of that
serialization enters the token count in `_countTokens`). -/

/-- Role of a LangChain message, as discriminated by `instanceof` checks
in the code. -/
inductive MessageKind
  | system
  | human
  | ai
  | tool
  deriving DecidableEq, Repr

/-- One entry of an array-valued `message.content`: the code only treats
items of type `text` and `image_url`. -/
inductive ContentItem
  | text (s : String)
  | image (url : String)
  deriving DecidableEq, Repr

/-- `message.content` is either a plain string or a list of items. -/
inductive MContent
  | str (s : String)
  | items (l : List ContentItem)
  deriving DecidableEq, Repr

/-- A LangChain message as consumed by the message manager. `toolCalls`
holds the JSON serialization of each tool call's `args` (non-empty only
for AI messages). -/
structure BaseMessage where
  kind : MessageKind
  content : MContent
  toolCalls : List String := []
  deriving DecidableEq, Repr

/-- `MessageMetadata`: the estimated token cost of a message. -/
structure MessageMetadata where
  tokens : Int
  deriving DecidableEq, Repr

/-- `ManagedMessage`: a message with its metadata. -/
structure ManagedMessage where
  message : BaseMessage
  metadata : MessageMetadata
  deriving DecidableEq, Repr

/-- `MessageHistory`: the ordered message list with the incrementally
tracked running token total. -/
structure MessageHistory where
  messages : List ManagedMessage
  currentTokens : Int
  deriving DecidableEq, Repr

/-- Token cost of one managed message. -/
def tok (m : ManagedMessage) : Int := m.metadata.tokens

namespace MessageHistory

/-- `MessageHistory.addMessage`: push at the tail when `position` is
`null`, otherwise `splice(position, 0, _)`; the running total always
grows by the message's token cost. -/
def addMessage (h : MessageHistory) (message : BaseMessage)
    (metadata : MessageMetadata) (position : Option Int := none) :
    MessageHistory :=
  { messages :=
      match position with
      | none => h.messages ++ [⟨message, metadata⟩]
      | some p => jsSpliceInsert h.messages p ⟨message, metadata⟩
    currentTokens := h.currentTokens + metadata.tokens }

/-- Helper for `removeOldestMessage`: remove the first non-system
message, returning the new list and the token cost removed. -/
def removeOldestAux : List ManagedMessage → List ManagedMessage × Int
  | [] => ([], 0)
  | m :: rest =>
    if m.message.kind = .system then
      let (l, t) := removeOldestAux rest
      (m :: l, t)
    else
      (rest, m.metadata.tokens)

/-- `MessageHistory.removeOldestMessage`: remove the oldest non-system
message (no change when every message is a system message). -/
def removeOldestMessage (h : MessageHistory) : MessageHistory :=
  let (l, t) := removeOldestAux h.messages
  { messages := l, currentTokens := h.currentTokens - t }

/-- `MessageHistory.removeMessageAtIndex`: remove the message at `index`
when it is in range, subtracting its token cost. -/
def removeMessageAtIndex (h : MessageHistory) (index : Nat) : MessageHistory :=
  if index < h.messages.length then
    let t := ((h.messages.get? index).map tok).getD 0
    { messages := h.messages.eraseIdx index
      currentTokens := h.currentTokens - t }
  else h

/-- `MessageHistory.removeLastStateMessage` (views.ts): when more than
two messages are stored and the last is a human message, pop it; the
token cost is subtracted only when it is JS-truthy (non-zero), which
does not change the arithmetic. -/
def removeLastStateMessage (h : MessageHistory) : MessageHistory :=
  if h.messages.length > 2 then
    match h.messages.getLast? with
    | some last =>
      if last.message.kind = .human then
        { messages := h.messages.dropLast
          currentTokens :=
            if last.metadata.tokens ≠ 0 then
              h.currentTokens - last.metadata.tokens
            else h.currentTokens }
      else h
    | none => h
  else h

end MessageHistory

/-- Sum of the stored per-message token costs; the quantity the running
total must stay consistent with. -/
def sumTokens (h : MessageHistory) : Int :=
  (h.messages.map tok).sum

/-- The token-accounting invariant of the message history. -/
def TokensInv (h : MessageHistory) : Prop :=
  h.currentTokens = sumTokens h

instance (h : MessageHistory) : Decidable (TokensInv h) := by
  unfold TokensInv; infer_instance

/-! ## Message manager (message_manager/service.ts)

`MessageManagerSettings` with its defaults, the token estimator
`_countTokens`, `addMessageWithTokens`, the service-level
`removeLastStateMessage`, `trimMessages` (given explicit fuel: the
source loops `while currentTokens > maxTokens`), and `cutMessages`
split into its two phases (image stripping, proportional truncation)
exactly along the control flow of the source.  The sensitive-data
filtering step of `addMessageWithTokens` is the identity when
`settings.sensitiveData` is `null`, which is the configuration modelled
here.  The numeric suffix the source interpolates into the
max-token-limit error text (a JS float rendering) is not modelled. -/

/-- `MessageManagerSettings` (fields that influence token accounting). -/
structure MessageManagerSettings where
  maxInputTokens : Int := 128000
  estimatedCharactersPerToken : Int := 3
  imageTokens : Int := 800
  deriving DecidableEq, Repr

/-- `Math.ceil(length / estimatedCharactersPerToken)` over `ℚ`.
The JS division-by-zero case (`estimatedCharactersPerToken = 0`,
yielding `Infinity`) is outside the modelled configurations. -/
def ceilTokens (s : MessageManagerSettings) (len : Nat) : Int :=
  ⌈(len : ℚ) / (s.estimatedCharactersPerToken : ℚ)⌉

/-- `MessageManager._countTokens`: text length over the
characters-per-token ratio (per item for array content, with the fixed
image cost per `image_url` item), plus `50` and the serialized-args
length over the same ratio for each tool call of an AI message. -/
def countTokens (s : MessageManagerSettings) (m : BaseMessage) : Int :=
  (match m.content with
   | .str c => ceilTokens s c.length
   | .items l =>
     (l.map (fun item =>
       match item with
       | .text t => ceilTokens s t.length
       | .image _ => s.imageTokens)).sum) +
  (if m.kind = .ai then
    (m.toolCalls.map (fun args => 50 + ceilTokens s args.length)).sum
   else 0)

/-- `MessageManager.addMessageWithTokens` (with `sensitiveData = null`,
so the filtering step is the identity): count tokens, build the
metadata, and append (or splice in) the message. -/
def addMessageWithTokens (s : MessageManagerSettings) (h : MessageHistory)
    (m : BaseMessage) (position : Option Int := none) : MessageHistory :=
  h.addMessage m ⟨countTokens s m⟩ position

/-- Index of the last human message, if any (the scan from the end in
the service-level `removeLastStateMessage`). -/
def lastHumanIdx : List ManagedMessage → Option Nat
  | [] => none
  | m :: rest =>
    match lastHumanIdx rest with
    | some i => some (i + 1)
    | none => if m.message.kind = .human then some 0 else none

/-- `MessageManager.removeLastStateMessage` (service.ts): remove the
last human message via `removeMessageAtIndex`, or do nothing when there
is none. -/
def serviceRemoveLastStateMessage (h : MessageHistory) : MessageHistory :=
  match lastHumanIdx h.messages with
  | some i => h.removeMessageAtIndex i
  | none => h

/-- `MessageManager.trimMessages` with explicit fuel: the source runs
`while (currentTokens > maxTokens) removeOldestMessage()`.  `none`
means the loop has not terminated within `fuel` iterations. -/
def trimMessagesFuel (maxTokens : Int) : Nat → MessageHistory → Option MessageHistory
  | 0, h => if h.currentTokens ≤ maxTokens then some h else none
  | fuel + 1, h =>
    if h.currentTokens ≤ maxTokens then some h
    else trimMessagesFuel maxTokens fuel h.removeOldestMessage

/-- The image-removal loop of `cutMessages`, which walks the content
array from the end: returns the remaining items (all non-image items,
order preserved), the concatenation of the text items in reverse
document order (the loop prepends because it iterates backwards), and
the number of images removed. -/
def stripImages : List ContentItem → List ContentItem × String × Nat
  | [] => ([], "", 0)
  | .text s :: rest =>
    let (l, t, k) := stripImages rest
    (.text s :: l, t ++ s, k)
  | .image _ :: rest =>
    let (l, t, k) := stripImages rest
    (l, t, k + 1)

/-- The image-stripping phase of `cutMessages`: when the last message
has array content, remove every `image_url` item, subtract the fixed
per-image cost from that message's stored cost and from the running
total for each removed image, and collapse to plain-string content when
no items remain. -/
def stripPhase (s : MessageManagerSettings) (h : MessageHistory) : MessageHistory :=
  match h.messages.getLast? with
  | none => h
  | some w =>
    match w.message.content with
    | .str _ => h
    | .items l =>
      let (l', txt, k) := stripImages l
      let newContent := if l'.isEmpty then MContent.str txt else MContent.items l'
      { messages := h.messages.dropLast ++
          [{ message := { w.message with content := newContent }
             metadata := ⟨w.metadata.tokens - k * s.imageTokens⟩ }]
        currentTokens := h.currentTokens - k * s.imageTokens }

/-- Error text thrown when the required truncation fraction exceeds
0.99 (the interpolated numeric suffix is not modelled). -/
def maxTokenLimitMsg : String :=
  "Max token limit reached - history is too long - reduce the system prompt or task"

/-- Rendering used for `JSON.stringify(msg.content)` when the content
is still an item array at truncation time (string escaping is not
modelled; only the length of this rendering matters to the code). -/
def itemsAsJson (l : List ContentItem) : String :=
  "[" ++ String.intercalate "," (l.map (fun item =>
    match item with
    | .text t => "\x7btype:text,text:" ++ t ++ "\x7d"
    | .image u => "\x7btype:image_url,image_url:" ++ u ++ "\x7d")) ++ "]"

/-- The content string the truncation step operates on
(`typeof msg.content === 'string' ? msg.content : JSON.stringify(...)`). -/
def contentAsString : MContent → String
  | .str c => c
  | .items l => itemsAsJson l

/-- The proportional-truncation phase of `cutMessages`, reached when the
running total still exceeds the budget after image stripping: compute
the overflow fraction against the last message's stored cost, fail when
it exceeds 0.99 (or when the stored cost is zero — the JS division
yields `Infinity` there), otherwise truncate the text proportionally,
remove the last state message and re-add the truncated human message
with a fresh token count. -/
def truncPhase (s : MessageManagerSettings) (h : MessageHistory) :
    Except String MessageHistory :=
  match h.messages.getLast? with
  | none => .ok h
  | some w =>
    let updatedDiff := h.currentTokens - s.maxInputTokens
    let t := w.metadata.tokens
    let proportionToRemove : ℚ := (updatedDiff : ℚ) / (t : ℚ)
    if t = 0 ∨ proportionToRemove > 99 / 100 then
      .error maxTokenLimitMsg
    else
      let content := contentAsString w.message.content
      let charactersToRemove : Int := ⌊(content.length : ℚ) * proportionToRemove⌋
      let truncatedContent :=
        content.take (jsClampIdx ((content.length : Int) - charactersToRemove) content.length)
      let h2 := serviceRemoveLastStateMessage h
      .ok (addMessageWithTokens s h2 ⟨.human, .str truncatedContent, []⟩)

/-- `MessageManager.cutMessages`: return unchanged while within budget,
otherwise strip images from the last message, return if that brought
the total within budget, and otherwise truncate proportionally (or
throw). -/
def cutMessages (s : MessageManagerSettings) (h : MessageHistory) :
    Except String MessageHistory :=
  let diff := h.currentTokens - s.maxInputTokens
  if diff ≤ 0 then .ok h
  else
    match h.messages.getLast? with
    | none => .ok h
    | some _ =>
      let h1 := stripPhase s h
      if h1.currentTokens - s.maxInputTokens ≤ 0 then .ok h1
      else truncPhase s h1

/-- The message-history operations quantified over by the
token-accounting claim, as an explicit operation language. -/
inductive HistoryOp
  | add (m : BaseMessage) (md : MessageMetadata) (position : Option Int)
  | removeOldest
  | removeAtIndex (i : Nat)
  | removeLastState
  | cut (s : MessageManagerSettings)

/-- Apply one operation.  A `cutMessages` run that throws leaves the
history in the state it had at the throw point, i.e. after the
image-stripping mutations (the source mutates in place before
throwing). -/
def applyOp (h : MessageHistory) : HistoryOp → MessageHistory
  | .add m md p => h.addMessage m md p
  | .removeOldest => h.removeOldestMessage
  | .removeAtIndex i => h.removeMessageAtIndex i
  | .removeLastState => h.removeLastStateMessage
  | .cut s =>
    match cutMessages s h with
    | .ok h' => h'
    | .error _ => stripPhase s h

/-- Apply a sequence of operations in order. -/
def applyOps (h : MessageHistory) : List HistoryOp → MessageHistory
  | [] => h
  | op :: rest => applyOps (applyOp h op) rest

/-! ## DOM snapshot builder (dom/service.ts)

The in-page extraction script hands the builder a flat map of node id to
raw descriptor plus a root id; `constructDomTree` walks the entries in
iteration order, parses each descriptor (`parseNode`), and wires the
children of element nodes by resolving child ids against the part of
the node map built so far.  The TypeScript objects form a graph with
back-pointers, so the built nodes are modelled id-indexed: `children`
and `parent` hold node ids and the node map is the object store (the
source's final cleanup loop only drops entries of the temporary map
while the objects stay alive through references, so it is not
modelled).  Geometry fields (rects, viewport info) influence none of
the checked properties and are omitted from the descriptors. -/

/-- Raw node descriptor from the extraction script
(`type: 'TEXT_NODE'` or an element descriptor with child ids). -/
inductive NodeData
  | textData (text : String) (isVisible : Bool)
  | elemData (tagName : String) (attributes : List (String × String))
      (isVisible : Bool) (highlightIndex : Option Nat) (children : List String)
  deriving DecidableEq, Repr

/-- A built `DOMTextNode`: text, visibility, and the parent
back-reference (a node id). -/
structure DTextNode where
  text : String
  isVisible : Bool
  parent : Option String
  deriving DecidableEq, Repr

/-- A built `DOMElementNode` (the fields the checked properties see):
tag name (lowercased by the constructor), attributes, resolved child
ids, visibility, highlight index, and the parent back-reference. -/
structure DElementNode where
  tagName : String
  attributes : List (String × String)
  children : List String
  isVisible : Bool
  highlightIndex : Option Nat
  parent : Option String
  deriving DecidableEq, Repr

/-- A built DOM node. -/
inductive DNode
  | elem (e : DElementNode)
  | text (t : DTextNode)
  deriving DecidableEq, Repr

/-- JS `String.prototype.trim`, implemented structurally over the
character list so that it computes by reduction. -/
def jsTrim (s : String) : String :=
  String.mk
    (((s.data.dropWhile (fun c => c.isWhitespace)).reverse.dropWhile
      (fun c => c.isWhitespace)).reverse)

/-- `tag.toLowerCase()` as applied by the `DOMElementNode` constructor
(implemented structurally over the character list so that it computes
by reduction). -/
def jsToLower (s : String) : String := String.mk (s.data.map Char.toLower)

/-- `parseNode`: descriptor to node plus the raw child-id list (empty
for text nodes); `children` and `parent` are filled in later. -/
def parseNode : NodeData → DNode × List String
  | .textData text isVisible => (.text ⟨text, isVisible, none⟩, [])
  | .elemData tagName attributes isVisible highlightIndex children =>
    (.elem ⟨jsToLower tagName, attributes, [], isVisible, highlightIndex, none⟩,
     children)

/-- The child-wiring loop of `constructDomTree` for one element: resolve
each child id against the node map built so far, skipping ids that are
not present; a resolved text child gets its parent back-reference set
to the element, a resolved element child is appended without a parent
update.  Returns the updated node map and the element's children list. -/
def wireChildren (nm : List (String × DNode)) (parentId : String) :
    List String → List (String × DNode) × List String
  | [] => (nm, [])
  | childId :: rest =>
    match assocGet nm childId with
    | none => wireChildren nm parentId rest
    | some (.text t) =>
      let nm' := assocSet nm childId (.text { t with parent := some parentId })
      let (nm'', kids) := wireChildren nm' parentId rest
      (nm'', childId :: kids)
    | some (.elem _) =>
      let (nm'', kids) := wireChildren nm parentId rest
      (nm'', childId :: kids)

/-- Intermediate state of the builder: the node map under construction
and the selector map (stringified highlight index to node id). -/
structure BuildState where
  nodeMap : List (String × DNode)
  selectorMap : List (String × String)
  deriving DecidableEq, Repr

/-- Process one `(id, descriptor)` entry of the flat map: parse it,
store it (elements are stored before their children are wired, as in
the source), register an element with a highlight index into the
selector map, and wire the element's children. -/
def processEntry (st : BuildState) (id : String) (data : NodeData) : BuildState :=
  match parseNode data with
  | (.text t, _) => { st with nodeMap := assocSet st.nodeMap id (.text t) }
  | (.elem e, childIds) =>
    let sel :=
      match e.highlightIndex with
      | some i => assocSet st.selectorMap (toString i) id
      | none => st.selectorMap
    let nm0 := assocSet st.nodeMap id (.elem e)
    let (nm1, kids) := wireChildren nm0 id childIds
    { nodeMap := assocSet nm1 id (.elem { e with children := kids })
      selectorMap := sel }

/-- Fold the builder over the entries of the flat map in iteration
order. -/
def buildFold : BuildState → List (String × NodeData) → BuildState
  | st, [] => st
  | st, (id, data) :: rest => buildFold (processEntry st id data) rest

/-- Result of `constructDomTree`: the root id together with the node
map (the object store) and the selector map. -/
structure DomTreeResult where
  rootId : String
  nodeMap : List (String × DNode)
  selectorMap : List (String × String)
  deriving DecidableEq, Repr

/-- `constructDomTree`: fail when the root id is falsy, build the node
map and selector map from the entries, and fail when the root entry is
missing or is not an element node. -/
def constructDomTree (entries : List (String × NodeData)) (jsRootId : String) :
    Except String DomTreeResult :=
  if jsRootId.isEmpty then
    .error "Missing required DOM tree data"
  else
    let st := buildFold ⟨[], []⟩ entries
    match assocGet st.nodeMap jsRootId with
    | some (.elem _) => .ok ⟨jsRootId, st.nodeMap, st.selectorMap⟩
    | _ => .error "Failed to parse HTML to dictionary"

/-! ## Element serializer (DOM views)

`clickableElementsToString` and its helpers, operating on the id-graph
produced by the builder.  The source recurses over object references;
the graph recursion is given explicit fuel (any fuel at least the tree
depth computes the same result on the acyclic graphs the builder
produces). -/

/-- `DOMTextNode.hasParentWithHighlightIndex`: walk parent
back-references upward looking for a highlight index.  On graphs from
`constructDomTree` only text nodes carry a parent reference, so the
walk inspects at most one element. -/
def hasParentWithHighlightIndex (nm : List (String × DNode)) :
    Nat → Option String → Bool
  | 0, _ => false
  | _, none => false
  | fuel + 1, some pid =>
    match assocGet nm pid with
    | some (.elem e) =>
      if e.highlightIndex.isSome then true
      else hasParentWithHighlightIndex nm fuel e.parent
    | _ => false

/-- The recursive text collector of
`getAllTextTillNextClickableElement` (with the default unlimited
depth): descend, stopping at any highlighted element other than the
starting one, gathering text-node contents. -/
def collectTextParts (nm : List (String × DNode)) (selfId : String) :
    Nat → String → List String
  | 0, _ => []
  | fuel + 1, id =>
    match assocGet nm id with
    | none => []
    | some (.text t) => [t.text]
    | some (.elem e) =>
      if id ≠ selfId ∧ e.highlightIndex.isSome then []
      else (e.children.map (fun c => collectTextParts nm selfId fuel c)).flatten

/-- `DOMElementNode.getAllTextTillNextClickableElement`: joined with
newlines and trimmed. -/
def getAllTextTillNextClickableElement (nm : List (String × DNode))
    (id : String) (fuel : Nat) : String :=
  jsTrim (String.intercalate "\n" (collectTextParts nm id fuel id))

/-- JS `Array.from(new Set(...))`: deduplicate preserving the first
occurrence of each value. -/
def dedupFirst : List String → List String
  | [] => []
  | x :: rest => x :: dedupFirst (rest.filter (· ≠ x))
termination_by l => l.length
decreasing_by
  exact Nat.lt_succ_of_le (List.length_filter_le _ _)

/-- The attribute string of one serialized line: values of the
allowlisted attributes that differ from the tag name, deduplicated,
with a value equal to the element's inline text dropped, joined with
semicolons. -/
def attributesLine (e : DElementNode) (includeAttributes : List String)
    (text : String) : String :=
  let attributes := dedupFirst
    ((e.attributes.filter
      (fun kv => includeAttributes.contains kv.1 && kv.2 ≠ e.tagName)).map (·.2))
  let attributes :=
    if !text.isEmpty && attributes.contains text then attributes.erase text
    else attributes
  String.intercalate ";" attributes

/-- One emitted line for a highlighted element, following the source's
string building: `"[" + index + "]<" + tag + " "`, then the attribute
string if non-empty, then (`">"` first when attributes were emitted)
the inline text if non-empty, then `"/>"`. -/
def elementLine (e : DElementNode) (idx : Nat) (attributesStr : String)
    (text : String) : String :=
  let line := "[" ++ toString idx ++ "]<" ++ e.tagName ++ " "
  let line := if !attributesStr.isEmpty then line ++ attributesStr else line
  let line :=
    if !text.isEmpty then
      if !attributesStr.isEmpty then line ++ ">" ++ text else line ++ text
    else line
  line ++ "/>"

/-- The `processNode` recursion of `clickableElementsToString`: a
highlighted element emits its line and all elements keep visiting their
children; a text node is emitted verbatim only when visible and without
a highlighted parent. -/
def processNode (nm : List (String × DNode))
    (includeAttributes : Option (List String)) :
    Nat → String → List String
  | 0, _ => []
  | fuel + 1, id =>
    match assocGet nm id with
    | none => []
    | some (.text t) =>
      if !hasParentWithHighlightIndex nm (fuel + 1) t.parent && t.isVisible then
        [t.text]
      else []
    | some (.elem e) =>
      let lines :=
        match e.highlightIndex with
        | some idx =>
          let text := getAllTextTillNextClickableElement nm id (fuel + 1)
          let attributesStr :=
            match includeAttributes with
            | some incl => attributesLine e incl text
            | none => ""
          [elementLine e idx attributesStr text]
        | none => []
      lines ++ (e.children.map (fun c => processNode nm includeAttributes fuel c)).flatten

/-- `DOMElementNode.clickableElementsToString`: the collected lines
joined with newlines. -/
def clickableElementsToString (nm : List (String × DNode)) (rootId : String)
    (includeAttributes : Option (List String)) (fuel : Nat) : String :=
  String.intercalate "\n" (processNode nm includeAttributes fuel rootId)

/-! ## Agent step engine (Agent class)

`ActionResult` with its defaults, the post-parse handling of
`getNextAction`, `multiAct` with the staleness check, and `step`.

`multiAct` interacts with the browser context and the controller
through awaited calls; these are modelled by a `MultiActEnv` record
giving, per action position, the selector map of the fresh snapshot
taken before that action, whether the cancellation checkpoint before
that action fires, and the `controller.act` result.  `step` likewise
takes a `StepEnv`.  The message-manager and history-recording side
effects of `step` (state message bookkeeping, conversation saving,
`_makeHistoryItem`) do not touch the fields the checked properties are
about and are projected away; the controller is assumed to return a
result rather than throw (a non-interrupt throw would leave `multiAct`
through the generic error path of `step`, which is modelled for the
model call). -/

/-- `ActionResult` with the class's default field values. -/
structure ActionResult where
  isDone : Option Bool := some false
  success : Option Bool := none
  extractedContent : Option String := none
  error : Option String := none
  includeInMemory : Bool := false
  deriving DecidableEq, Repr

/-- An `ActionModel` as `multiAct` consumes it: only the result of
`getIndex()` (the element index parameter, when present) matters. -/
structure ActionModel where
  getIndex : Option Nat
  deriving DecidableEq, Repr

/-- Parsed `AgentOutput` (its `currentState` brain fields influence
nothing checked here and are omitted). -/
structure AgentOutput where
  action : List ActionModel
  deriving DecidableEq, Repr

/-- The post-parse tail of `getNextAction`: a `null` parse throws
`Could not parse response.`, and a parsed output whose action list
exceeds `maxActionsPerStep` is silently truncated with `slice`. -/
def getNextActionPost (maxActionsPerStep : Nat) (parsed : Option AgentOutput) :
    Except String AgentOutput :=
  match parsed with
  | none => .error "Could not parse response."
  | some p =>
    if p.action.length > maxActionsPerStep then
      .ok { p with action := p.action.take maxActionsPerStep }
    else
      .ok p

/-- An entry of a selector map as the staleness check reads it:
`element.hash?.branchPathHash`, collapsed to `none` when the hash
object or the hash string is absent. -/
structure SelEntry where
  branchPathHash : Option String
  deriving DecidableEq, Repr

/-- The hash set extracted from a selector map: every JS-truthy
`hash.branchPathHash` (absent or empty-string hashes are skipped). -/
def pathHashes (m : List (String × SelEntry)) : List String :=
  m.filterMap (fun p =>
    match p.2.branchPathHash with
    | some s => if s.isEmpty then none else some s
    | none => none)

/-- `newPathHashes.issubset(cachedPathHashes)` as the source computes
it: every new hash is contained in the cached set. -/
def hashSubset (newHashes cached : List String) : Bool :=
  newHashes.all (fun h => cached.contains h)

/-- Environment of one `multiAct` run: the selector map cached at
prompt-composition time, the selector map of the fresh snapshot taken
before action `i`, whether the cancellation checkpoint before action
`i` fires, and the controller result of action `i`. -/
structure MultiActEnv where
  cachedSelectorMap : List (String × SelEntry)
  newSelectorMap : Nat → List (String × SelEntry)
  pausedAt : Nat → Bool
  act : Nat → ActionResult

/-- The abort result `multiAct` records when the staleness check
trips before action `i` of `n`. -/
def multiActAbortResult (i n : Nat) : ActionResult :=
  { extractedContent :=
      some ("Something new appeared after action " ++ toString i ++ " / " ++ toString n)
    includeInMemory := true }

/-- The staleness condition before action `a` at position `i`: the
action carries an element index, it is not the first action, staleness
checking is enabled, and the fresh hash set is not a subset of the
cached one. -/
def staleTrigger (env : MultiActEnv) (checkForNewElements : Bool)
    (cached : List String) (a : ActionModel) (i : Nat) : Bool :=
  a.getIndex.isSome && (i != 0) && checkForNewElements &&
    !hashSubset (pathHashes (env.newSelectorMap i)) cached

/-- The action loop of `multiAct` over the remaining actions, carrying
the position `i` and the accumulated results: abort on the staleness
condition, throw (`.error`) when the cancellation checkpoint fires,
otherwise execute the action and stop after a done result, a truthy
error, or the last action. -/
def multiActLoop (env : MultiActEnv) (checkForNewElements : Bool)
    (cached : List String) (n : Nat) :
    List ActionModel → Nat → List ActionResult → Except Unit (List ActionResult)
  | [], _, acc => .ok acc
  | a :: rest, i, acc =>
    if staleTrigger env checkForNewElements cached a i then
      .ok (acc ++ [multiActAbortResult i n])
    else if env.pausedAt i then .error ()
    else
      let r := env.act i
      let acc2 := acc ++ [r]
      if jsTruthyBool r.isDone || jsTruthyStr r.error || (i == n - 1) then
        .ok acc2
      else
        multiActLoop env checkForNewElements cached n rest (i + 1) acc2

/-- `Agent.multiAct`: cache the branch-path-hash set of the selector
map valid at prompt-composition time, then run the action loop. -/
def multiAct (env : MultiActEnv) (actions : List ActionModel)
    (checkForNewElements : Bool := true) : Except Unit (List ActionResult) :=
  let cached := pathHashes env.cachedSelectorMap
  multiActLoop env checkForNewElements cached actions.length actions 0 []

/-- The agent-state fields `step` reads and writes. -/
structure AgentState where
  nSteps : Nat
  consecutiveFailures : Nat
  lastResult : List ActionResult
  stopped : Bool
  paused : Bool
  deriving DecidableEq, Repr

/-- Environment of one `step` run: whether the external status callback
makes `_raiseIfStoppedOrPaused` throw at the checkpoint after the
snapshot and at the checkpoint after the model call, and the outcome of
`getNextAction` (the thrown error message, or the parsed output). -/
structure StepEnv where
  checkpointAfterSnapshot : Bool
  modelResult : Except String AgentOutput
  checkpointAfterModel : Bool
  multiEnv : MultiActEnv

/-- The result `step` records when it swallows a cancellation
interrupt. -/
def pausedInterruptResult : ActionResult :=
  { error := some "The agent was paused - now continuing actions might need to be repeated"
    includeInMemory := true }

/-- `_raiseIfStoppedOrPaused` throws when the external callback fires
or the agent state is stopped or paused. -/
def raiseIfStoppedOrPaused (externalFires : Bool) (s : AgentState) : Bool :=
  externalFires || s.stopped || s.paused

/-- The generic branch of `_handleStepError` for a thrown `Error`
(name `"Error"`): increment the consecutive-failure counter and record
a single memory-included error result (the stack-trace formatting and
the token-limit / parse-hint message special cases mutate only the
message manager, which is projected away). -/
def handleStepError (s : AgentState) (msg : String) : AgentState :=
  { s with
    consecutiveFailures := s.consecutiveFailures + 1
    lastResult := [{ error := some msg, includeInMemory := true }] }

/-- `Agent.step`, projected to the agent-state fields: snapshot then
cancellation checkpoint, model call (whose throw is re-raised after
state-message cleanup), step-counter increment, second checkpoint,
`multiAct`, and either the interrupt swallowing (a cancellation records
the explanatory result and returns), the generic error handler, or the
success path that records the results and resets the failure counter. -/
def step (env : StepEnv) (s : AgentState) : AgentState :=
  if raiseIfStoppedOrPaused env.checkpointAfterSnapshot s then
    { s with lastResult := [pausedInterruptResult] }
  else
    match env.modelResult with
    | .error e =>
      if e = "Interrupted" then { s with lastResult := [pausedInterruptResult] }
      else handleStepError s e
    | .ok modelOutput =>
      let s1 := { s with nSteps := s.nSteps + 1 }
      if raiseIfStoppedOrPaused env.checkpointAfterModel s1 then
        { s1 with lastResult := [pausedInterruptResult] }
      else
        match multiAct env.multiEnv modelOutput.action true with
        | .error _ => { s1 with lastResult := [pausedInterruptResult] }
        | .ok results =>
          { s1 with lastResult := results, consecutiveFailures := 0 }

/-- Whether a content item is an `image_url` item. -/
def isImageItem : ContentItem → Bool
  | .image _ => true
  | .text _ => false

/-- The text accumulated by the backwards image-removal loop: the text
items concatenated in reverse document order. -/
def revTextConcat : List ContentItem → String
  | [] => ""
  | .text s :: rest => revTextConcat rest ++ s
  | .image _ :: rest => revTextConcat rest

/-- The last message after the image-stripping phase: images removed
from the content (collapsed to a plain string when nothing remains),
stored cost reduced by the per-image cost once per removed image. -/
def strippedWrapper (s : MessageManagerSettings) (w : ManagedMessage)
    (l : List ContentItem) : ManagedMessage where
  message :=
    { w.message with content :=
        if (l.filter (fun i => !isImageItem i)).isEmpty then
          MContent.str (revTextConcat l)
        else MContent.items (l.filter (fun i => !isImageItem i)) }
  metadata := ⟨w.metadata.tokens - (l.countP isImageItem : Int) * s.imageTokens⟩

/-- Concrete inputs for the C3 witness: budget 900, a single state
message estimated at 1000 tokens containing an 800-token image. -/
def stC3 : MessageManagerSettings := { maxInputTokens := 900 }

def lC3 : List ContentItem := [.text "hello", .image "u"]

def wC3 : ManagedMessage := ⟨⟨.human, .items lC3, []⟩, ⟨1000⟩⟩

def hC3 : MessageHistory := ⟨[wC3], 1000⟩

/-- Concrete inputs for the C4 witness: budget 900, a single plain-text
message stored at 100 tokens while the running total is 1000, so the
overflow fraction is 1. -/
def stC4 : MessageManagerSettings := { maxInputTokens := 900 }

def wC4 : ManagedMessage := ⟨⟨.human, .str "abcdef", []⟩, ⟨100⟩⟩

def hC4 : MessageHistory := ⟨[wC4], 1000⟩

/-- Position of the first action at which the staleness condition
trips, scanning the remaining actions from position `i` (the
specification-side description of where the `multiAct` loop aborts). -/
def firstAbortIdx (env : MultiActEnv) (c : Bool) (cached : List String) :
    List ActionModel → Nat → Option Nat
  | [], _ => none
  | a :: rest, i =>
    if staleTrigger env c cached a i then some i
    else firstAbortIdx env c cached rest (i + 1)

/-- Substring test used to check what an abort message cites. -/
def containsSub (needle hay : String) : Bool :=
  hay.data.tails.any (fun t => needle.data.isPrefixOf t)

/-- Concrete staleness scenario (counterexample input for the abort
message): cached hashes A,B,C; the snapshot before action 1 shows
A,B,C,D; two index-referencing actions. -/
def envC1 : MultiActEnv where
  cachedSelectorMap := [("0", ⟨some "A"⟩), ("1", ⟨some "B"⟩), ("2", ⟨some "C"⟩)]
  newSelectorMap := fun _ =>
    [("0", ⟨some "A"⟩), ("1", ⟨some "B"⟩), ("2", ⟨some "C"⟩), ("3", ⟨some "D"⟩)]
  pausedAt := fun _ => false
  act := fun _ => { extractedContent := some "clicked" }

def actionsC1 : List ActionModel := [⟨some 5⟩, ⟨some 7⟩]

/-- The same staleness scenario, instantiating the general abort
characterization. -/
def envC1w : MultiActEnv where
  cachedSelectorMap := [("0", ⟨some "A"⟩), ("1", ⟨some "B"⟩), ("2", ⟨some "C"⟩)]
  newSelectorMap := fun _ =>
    [("0", ⟨some "A"⟩), ("1", ⟨some "B"⟩), ("2", ⟨some "C"⟩), ("3", ⟨some "D"⟩)]
  pausedAt := fun _ => false
  act := fun _ => { extractedContent := some "clicked" }

def actionsC1w : List ActionModel := [⟨some 5⟩, ⟨some 7⟩]

/-- A multi-action environment whose snapshots never change and whose
actions always succeed benignly. -/
def multiEnvQuiet : MultiActEnv where
  cachedSelectorMap := [("0", ⟨some "A"⟩)]
  newSelectorMap := fun _ => [("0", ⟨some "A"⟩)]
  pausedAt := fun _ => false
  act := fun _ => { extractedContent := some "ok" }

/-- Step environment for the cancellation counterexample: the
checkpoint after the model call fires. -/
def envC7 : StepEnv where
  checkpointAfterSnapshot := false
  modelResult := .ok ⟨[]⟩
  checkpointAfterModel := true
  multiEnv := multiEnvQuiet

def sC7 : AgentState := ⟨0, 0, [], false, false⟩

/-- Step environment for the cancellation witness: the checkpoint right
after the snapshot fires. -/
def envC7w : StepEnv where
  checkpointAfterSnapshot := true
  modelResult := .ok ⟨[]⟩
  checkpointAfterModel := false
  multiEnv := multiEnvQuiet

def sC7w : AgentState := ⟨4, 2, [], false, false⟩

/-- Step environment for the C9 witness: no cancellation, a parsed
two-action output, and a staleness abort before the second action. -/
def multiEnvC9 : MultiActEnv where
  cachedSelectorMap := [("0", ⟨some "A"⟩), ("1", ⟨some "B"⟩)]
  newSelectorMap := fun _ => [("0", ⟨some "A"⟩), ("1", ⟨some "B"⟩), ("2", ⟨some "E"⟩)]
  pausedAt := fun _ => false
  act := fun _ => { extractedContent := some "clicked" }

def envC9 : StepEnv where
  checkpointAfterSnapshot := false
  modelResult := .ok ⟨[⟨some 5⟩, ⟨some 7⟩]⟩
  checkpointAfterModel := false
  multiEnv := multiEnvC9

def sC9 : AgentState := ⟨1, 3, [], false, false⟩

/-- The spec's 3-node flat map: a root div containing a button with
highlight index 0 whose child is the visible text node "Go" (children
listed before their parents, as the extraction script produces them). -/
def mapC5 : List (String × NodeData) :=
  [("3", .textData "Go" true),
   ("2", .elemData "button" [] true (some 0) ["3"]),
   ("1", .elemData "div" [] true none ["2"])]

/-- A 2-node flat map in bottom-up order: a highlighted button child
followed by its div parent. -/
def mapC6 : List (String × NodeData) :=
  [("1", .elemData "button" [] true (some 0) []),
   ("2", .elemData "div" [] true none ["1"])]

/-! ## Helper lemmas: token accounting -/

theorem sum_insertAtNat (x : ManagedMessage) :
    ∀ (n : Nat) (l : List ManagedMessage),
      ((insertAtNat n l x).map tok).sum = (l.map tok).sum + tok x
  | 0, l => by simp [insertAtNat]; ring
  | _ + 1, [] => by simp [insertAtNat]
  | n + 1, y :: l => by
    simp [insertAtNat, sum_insertAtNat x n l]; ring

theorem sum_removeOldestAux (l : List ManagedMessage) :
    (((MessageHistory.removeOldestAux l).1.map tok).sum
      + (MessageHistory.removeOldestAux l).2) = (l.map tok).sum := by
  induction l with
  | nil => simp [MessageHistory.removeOldestAux]
  | cons m rest ih =>
    unfold MessageHistory.removeOldestAux
    by_cases hm : m.message.kind = .system
    · rw [if_pos hm]
      cases hrec : MessageHistory.removeOldestAux rest with
      | mk l' t =>
        rw [hrec] at ih
        dsimp only at ih
        simp only [List.map_cons, List.sum_cons]
        omega
    · rw [if_neg hm]
      simp only [List.map_cons, List.sum_cons, tok]
      omega

theorem sum_eraseIdx :
    ∀ (l : List ManagedMessage) (i : Nat), i < l.length →
      ((l.eraseIdx i).map tok).sum
        = (l.map tok).sum - (((l.get? i).map tok).getD 0)
  | [], i, h => by simp at h
  | m :: rest, 0, _ => by simp [List.eraseIdx, tok]
  | m :: rest, i + 1, h => by
    have hi : i < rest.length := by simpa using h
    simp only [List.eraseIdx, List.map_cons, List.sum_cons, List.get?]
    rw [sum_eraseIdx rest i hi]
    ring

theorem sum_dropLast (l : List ManagedMessage) (last : ManagedMessage)
    (h : l.getLast? = some last) :
    (l.dropLast.map tok).sum = (l.map tok).sum - tok last := by
  have hne : l ≠ [] := by
    intro he; rw [he] at h; simp at h
  have hdecomp : l.dropLast ++ [l.getLast hne] = l := List.dropLast_append_getLast hne
  have hlast : l.getLast hne = last := by
    have := List.getLast?_eq_getLast l hne
    rw [this] at h
    exact (Option.some_injective _ h)
  calc (l.dropLast.map tok).sum
      = (l.dropLast.map tok).sum + tok last - tok last := by ring
    _ = ((l.dropLast ++ [l.getLast hne]).map tok).sum - tok last := by
        rw [hlast]; simp
    _ = (l.map tok).sum - tok last := by rw [hdecomp]

theorem tokensInv_addMessage (h : MessageHistory) (m : BaseMessage)
    (md : MessageMetadata) (p : Option Int) (hinv : TokensInv h) :
    TokensInv (h.addMessage m md p) := by
  cases p with
  | none =>
    simp only [TokensInv, MessageHistory.addMessage, sumTokens] at *
    simp only [List.map_append, List.sum_append, List.map_cons, List.sum_cons,
      List.map_nil, List.sum_nil, tok]
    omega
  | some pos =>
    simp only [TokensInv, MessageHistory.addMessage, sumTokens] at *
    unfold jsSpliceInsert
    rw [sum_insertAtNat]
    simp only [tok]
    omega

theorem tokensInv_removeOldest (h : MessageHistory) (hinv : TokensInv h) :
    TokensInv h.removeOldestMessage := by
  simp only [TokensInv, MessageHistory.removeOldestMessage, sumTokens] at *
  have hsum := sum_removeOldestAux h.messages
  cases hrec : MessageHistory.removeOldestAux h.messages with
  | mk l' t =>
    rw [hrec] at hsum
    dsimp only at hsum
    simp only [hrec]
    omega

theorem tokensInv_removeAtIndex (h : MessageHistory) (i : Nat)
    (hinv : TokensInv h) : TokensInv (h.removeMessageAtIndex i) := by
  simp only [TokensInv, MessageHistory.removeMessageAtIndex, sumTokens] at *
  by_cases hlt : i < h.messages.length
  · rw [if_pos hlt]
    simp only []
    rw [sum_eraseIdx h.messages i hlt]
    omega
  · rw [if_neg hlt]
    exact hinv

theorem tokensInv_removeLastState (h : MessageHistory) (hinv : TokensInv h) :
    TokensInv h.removeLastStateMessage := by
  simp only [TokensInv, MessageHistory.removeLastStateMessage, sumTokens] at *
  by_cases hlen : h.messages.length > 2
  · rw [if_pos hlen]
    cases hlast : h.messages.getLast? with
    | none => exact hinv
    | some last =>
      dsimp only
      by_cases hk : last.message.kind = .human
      · rw [if_pos hk]
        have hd := sum_dropLast h.messages last hlast
        by_cases hz : last.metadata.tokens ≠ 0
        · rw [if_pos hz]
          dsimp only
          simp only [tok] at hd
          omega
        · rw [if_neg hz]
          dsimp only
          push_neg at hz
          simp only [tok, hz] at hd
          omega
      · rw [if_neg hk]
        exact hinv
  · rw [if_neg hlen]
    exact hinv

theorem tokensInv_stripPhase (s : MessageManagerSettings) (h : MessageHistory)
    (hinv : TokensInv h) : TokensInv (stripPhase s h) := by
  simp only [TokensInv, stripPhase, sumTokens] at *
  cases hlast : h.messages.getLast? with
  | none => exact hinv
  | some w =>
    dsimp only
    cases hc : w.message.content with
    | str c => exact hinv
    | items l =>
      dsimp only
      cases hstrip : stripImages l with
      | mk l' rest =>
        cases rest with
        | mk txt k =>
          dsimp only
          have hd := sum_dropLast h.messages w hlast
          simp only [List.map_append, List.sum_append, List.map_cons,
            List.sum_cons, List.map_nil, List.sum_nil, tok] at *
          omega

theorem tokensInv_serviceRemoveLastState (h : MessageHistory)
    (hinv : TokensInv h) : TokensInv (serviceRemoveLastStateMessage h) := by
  unfold serviceRemoveLastStateMessage
  cases lastHumanIdx h.messages with
  | none => exact hinv
  | some i => exact tokensInv_removeAtIndex h i hinv

theorem tokensInv_truncPhase (s : MessageManagerSettings) (h : MessageHistory)
    (h' : MessageHistory) (hinv : TokensInv h)
    (hok : truncPhase s h = .ok h') : TokensInv h' := by
  unfold truncPhase at hok
  cases hlast : h.messages.getLast? with
  | none =>
    rw [hlast] at hok
    cases hok
    exact hinv
  | some w =>
    rw [hlast] at hok
    by_cases hcond : w.metadata.tokens = 0 ∨
        ((h.currentTokens - s.maxInputTokens : Int) : ℚ) / (w.metadata.tokens : ℚ) > 99 / 100
    · simp only [if_pos hcond] at hok
      cases hok
    · simp only [if_neg hcond] at hok
      cases hok
      exact tokensInv_addMessage _ _ _ _ (tokensInv_serviceRemoveLastState h hinv)

theorem tokensInv_cutMessages (s : MessageManagerSettings) (h : MessageHistory)
    (h' : MessageHistory) (hinv : TokensInv h)
    (hok : cutMessages s h = .ok h') : TokensInv h' := by
  unfold cutMessages at hok
  by_cases hdiff : h.currentTokens - s.maxInputTokens ≤ 0
  · simp only [if_pos hdiff] at hok
    cases hok
    exact hinv
  · simp only [if_neg hdiff] at hok
    cases hlast : h.messages.getLast? with
    | none =>
      rw [hlast] at hok
      cases hok
      exact hinv
    | some w =>
      rw [hlast] at hok
      by_cases h2 : (stripPhase s h).currentTokens - s.maxInputTokens ≤ 0
      · simp only [if_pos h2] at hok
        cases hok
        exact tokensInv_stripPhase s h hinv
      · simp only [if_neg h2] at hok
        exact tokensInv_truncPhase s _ h' (tokensInv_stripPhase s h hinv) hok

theorem tokensInv_applyOp (h : MessageHistory) (op : HistoryOp)
    (hinv : TokensInv h) : TokensInv (applyOp h op) := by
  cases op with
  | add m md p => exact tokensInv_addMessage h m md p hinv
  | removeOldest => exact tokensInv_removeOldest h hinv
  | removeAtIndex i => exact tokensInv_removeAtIndex h i hinv
  | removeLastState => exact tokensInv_removeLastState h hinv
  | cut s =>
    simp only [applyOp]
    cases hc : cutMessages s h with
    | ok h' => exact tokensInv_cutMessages s h h' hinv hc
    | error e => exact tokensInv_stripPhase s h hinv

/-! ## Helper lemmas: image stripping -/


theorem stripImages_eq (l : List ContentItem) :
    stripImages l =
      (l.filter (fun i => !isImageItem i), revTextConcat l, l.countP isImageItem) := by
  induction l with
  | nil => simp [stripImages, revTextConcat]
  | cons x rest ih =>
    cases x with
    | text s =>
      simp only [stripImages, ih, List.filter_cons, List.countP_cons,
        isImageItem, revTextConcat]
      simp
    | image u =>
      simp only [stripImages, ih, List.filter_cons, List.countP_cons,
        isImageItem, revTextConcat]
      simp

/-! ## Claim theorems: message manager -/

/-- Claim C2: for every sequence of message-history operations (adding
a message at the tail or at an explicit position, `removeOldestMessage`,
`removeMessageAtIndex`, `removeLastStateMessage`, and `cutMessages`
including its in-place image removal), the running total
`currentTokens` stays equal to the sum of `metadata.tokens` over the
stored messages. -/
theorem claim_C2_token_accounting (h : MessageHistory) (ops : List HistoryOp)
    (hinv : TokensInv h) : TokensInv (applyOps h ops) := by
  induction ops generalizing h with
  | nil => exact hinv
  | cons op rest ih => exact ih _ (tokensInv_applyOp h op hinv)

/-- Witness for C2: a concrete operation sequence exercising every
operation kind, starting from the empty history. -/
theorem claim_C2_token_accounting_witness :
    TokensInv (⟨[], 0⟩ : MessageHistory) ∧
    TokensInv (applyOps ⟨[], 0⟩
      [.add ⟨.system, .str "sys", []⟩ ⟨10⟩ none,
       .add ⟨.human, .str "task", []⟩ ⟨20⟩ none,
       .add ⟨.human, .items [.text "hello", .image "u"], []⟩ ⟨900⟩ (some (-1)),
       .cut { maxInputTokens := 50 },
       .removeLastState,
       .removeAtIndex 0,
       .removeOldest]) :=
  ⟨by decide, claim_C2_token_accounting _ _ (by decide)⟩

/-- Claim C10: when every stored message is a system message,
`removeOldestMessage` changes nothing, and therefore the
`trimMessages` loop (`while currentTokens > maxTokens`) never
terminates when the running total exceeds the budget: with any amount
of fuel it fails to reach a state within budget. -/
theorem claim_C10_allSystem_trim_diverges (h : MessageHistory)
    (hall : ∀ m ∈ h.messages, m.message.kind = .system) :
    h.removeOldestMessage = h ∧
    (∀ maxTokens : Int, h.currentTokens > maxTokens →
      ∀ fuel : Nat, trimMessagesFuel maxTokens fuel h = none) := by
  have haux : ∀ l : List ManagedMessage, (∀ m ∈ l, m.message.kind = .system) →
      MessageHistory.removeOldestAux l = (l, 0) := by
    intro l hl
    induction l with
    | nil => rfl
    | cons m rest ih =>
      unfold MessageHistory.removeOldestAux
      rw [if_pos (hl m (by simp))]
      rw [ih (fun m hm => hl m (by simp [hm]))]
  have hfix : h.removeOldestMessage = h := by
    unfold MessageHistory.removeOldestMessage
    rw [haux h.messages hall]
    dsimp only
    cases h with
    | mk msgs ct => simp
  refine ⟨hfix, ?_⟩
  intro maxTokens hgt fuel
  induction fuel with
  | zero =>
    unfold trimMessagesFuel
    rw [if_neg (by omega)]
  | succ n ih =>
    unfold trimMessagesFuel
    rw [if_neg (by omega), hfix]
    exact ih

/-- Witness for C10: a single-system-message history over budget. -/
theorem claim_C10_allSystem_trim_diverges_witness :
    MessageHistory.removeOldestMessage ⟨[⟨⟨.system, .str "s", []⟩, ⟨10⟩⟩], 10⟩
      = ⟨[⟨⟨.system, .str "s", []⟩, ⟨10⟩⟩], 10⟩ ∧
    trimMessagesFuel 5 100 ⟨[⟨⟨.system, .str "s", []⟩, ⟨10⟩⟩], 10⟩ = none := by
  have h := claim_C10_allSystem_trim_diverges
    ⟨[⟨⟨.system, .str "s", []⟩, ⟨10⟩⟩], 10⟩ (by decide)
  exact ⟨h.1, h.2 5 (by decide) 100⟩


/-- Claim C3: when the running total exceeds the budget and the most
recent message has array content, `cutMessages` removes exactly the
image items from it, subtracts the fixed per-image cost from both the
message's stored cost and the running total (once per image), and when
the total is then within budget it returns without touching anything
else — no text truncation, no message replacement. -/
theorem claim_C3_image_stripping (s : MessageManagerSettings)
    (h : MessageHistory) (w : ManagedMessage) (l : List ContentItem)
    (hlast : h.messages.getLast? = some w)
    (hcontent : w.message.content = .items l)
    (hover : h.currentTokens - s.maxInputTokens > 0)
    (hunder : h.currentTokens - (l.countP isImageItem : Int) * s.imageTokens
      - s.maxInputTokens ≤ 0) :
    ∃ w' : ManagedMessage,
      cutMessages s h = .ok ⟨h.messages.dropLast ++ [w'],
        h.currentTokens - (l.countP isImageItem : Int) * s.imageTokens⟩ ∧
      w'.message.kind = w.message.kind ∧
      w'.metadata.tokens
        = w.metadata.tokens - (l.countP isImageItem : Int) * s.imageTokens ∧
      w'.message.content =
        (if (l.filter (fun i => !isImageItem i)).isEmpty then
          MContent.str (revTextConcat l)
         else MContent.items (l.filter (fun i => !isImageItem i))) := by
  have hstrip : stripPhase s h =
      ⟨h.messages.dropLast ++ [strippedWrapper s w l],
        h.currentTokens - (l.countP isImageItem : Int) * s.imageTokens⟩ := by
    unfold stripPhase
    rw [hlast]
    dsimp only
    rw [hcontent]
    dsimp only
    rw [stripImages_eq]
    rfl
  refine ⟨strippedWrapper s w l, ?_, rfl, rfl, rfl⟩
  unfold cutMessages
  rw [if_neg (by omega : ¬ (h.currentTokens - s.maxInputTokens ≤ 0))]
  rw [hlast]
  dsimp only
  rw [hstrip]
  dsimp only
  rw [if_pos (by omega :
    h.currentTokens - (l.countP isImageItem : Int) * s.imageTokens
      - s.maxInputTokens ≤ 0)]


/-- Witness for C3: the spec's own example — the image is stripped
(1000 tokens down to 200) and `cutMessages` returns without text
truncation. -/
theorem claim_C3_image_stripping_witness :
    ∃ w' : ManagedMessage,
      cutMessages stC3 hC3 = .ok ⟨hC3.messages.dropLast ++ [w'],
        hC3.currentTokens - (lC3.countP isImageItem : Int) * stC3.imageTokens⟩ ∧
      w'.message.kind = wC3.message.kind ∧
      w'.metadata.tokens
        = wC3.metadata.tokens - (lC3.countP isImageItem : Int) * stC3.imageTokens ∧
      w'.message.content =
        (if (lC3.filter (fun i => !isImageItem i)).isEmpty then
          MContent.str (revTextConcat lC3)
         else MContent.items (lC3.filter (fun i => !isImageItem i))) :=
  claim_C3_image_stripping stC3 hC3 wC3 lC3 (by decide) (by decide)
    (by decide) (by decide)

/-- Claim C4: when the running total still exceeds the budget after
image stripping, `cutMessages` compares the overflow fraction (the
remaining overflow divided by the last message's stored token estimate)
against 0.99: above the threshold it throws the budget-exhausted error
without emitting any truncated message, at or below it it truncates the
message text proportionally and re-adds the truncated human message. -/
theorem claim_C4_truncation_threshold (s : MessageManagerSettings)
    (h : MessageHistory) (w : ManagedMessage)
    (hover : h.currentTokens - s.maxInputTokens > 0)
    (hw : (stripPhase s h).messages.getLast? = some w)
    (hstill : (stripPhase s h).currentTokens - s.maxInputTokens > 0)
    (ht : 0 < w.metadata.tokens) :
    ((((stripPhase s h).currentTokens - s.maxInputTokens : Int) : ℚ)
        / ((w.metadata.tokens : Int) : ℚ) > 99 / 100 →
      cutMessages s h = .error maxTokenLimitMsg) ∧
    ((((stripPhase s h).currentTokens - s.maxInputTokens : Int) : ℚ)
        / ((w.metadata.tokens : Int) : ℚ) ≤ 99 / 100 →
      cutMessages s h = .ok (addMessageWithTokens s
        (serviceRemoveLastStateMessage (stripPhase s h))
        ⟨.human, .str ((contentAsString w.message.content).take
          (jsClampIdx
            (((contentAsString w.message.content).length : Int)
              - ⌊((contentAsString w.message.content).length : ℚ)
                  * ((((stripPhase s h).currentTokens - s.maxInputTokens : Int) : ℚ)
                    / ((w.metadata.tokens : Int) : ℚ))⌋)
            (contentAsString w.message.content).length)), []⟩)) := by
  have hl0 : h.messages.getLast? ≠ none := by
    intro he
    have : stripPhase s h = h := by
      unfold stripPhase
      rw [he]
    rw [this] at hw
    rw [he] at hw
    cases hw
  have hcut : cutMessages s h = truncPhase s (stripPhase s h) := by
    unfold cutMessages
    rw [if_neg (by omega : ¬ (h.currentTokens - s.maxInputTokens ≤ 0))]
    cases hl : h.messages.getLast? with
    | none => exact absurd hl hl0
    | some w0 =>
      dsimp only
      rw [if_neg (by omega :
        ¬ ((stripPhase s h).currentTokens - s.maxInputTokens ≤ 0))]
  constructor
  · intro hgt
    rw [hcut]
    unfold truncPhase
    rw [hw]
    dsimp only
    rw [if_pos (Or.inr hgt)]
  · intro hle
    rw [hcut]
    unfold truncPhase
    rw [hw]
    dsimp only
    have hc : ¬ (w.metadata.tokens = 0 ∨
        (((stripPhase s h).currentTokens - s.maxInputTokens : Int) : ℚ)
          / ((w.metadata.tokens : Int) : ℚ) > 99 / 100) := by
      push_neg
      exact ⟨by omega, hle⟩
    rw [if_neg hc]


/-- Witness for C4: the overflow fraction exceeds 0.99 and
`cutMessages` throws the budget-exhausted error. -/
theorem claim_C4_truncation_threshold_witness :
    cutMessages stC4 hC4 = .error maxTokenLimitMsg := by
  have h := claim_C4_truncation_threshold stC4 hC4 wC4 (by decide) (by decide)
    (by decide) (by decide)
  apply h.1
  show ((1000 - 900 : Int) : ℚ) / ((100 : Int) : ℚ) > 99 / 100
  norm_num

/-! ## Helper lemmas: multiAct characterization -/

theorem firstAbortIdx_ge (env : MultiActEnv) (c : Bool) (cached : List String) :
    ∀ (l : List ActionModel) (i k : Nat),
      firstAbortIdx env c cached l i = some k → i ≤ k := by
  intro l
  induction l with
  | nil => intro i k h; simp [firstAbortIdx] at h
  | cons a rest ih =>
    intro i k h
    unfold firstAbortIdx at h
    by_cases hst : staleTrigger env c cached a i = true
    · rw [if_pos hst] at h
      cases h
      exact Nat.le_refl _
    · rw [if_neg hst] at h
      have := ih (i + 1) k h
      omega

theorem multiActLoop_eq (env : MultiActEnv) (c : Bool) (cached : List String)
    (n : Nat)
    (hpause : ∀ i, env.pausedAt i = false)
    (hdone : ∀ i, jsTruthyBool (env.act i).isDone = false)
    (herr : ∀ i, jsTruthyStr (env.act i).error = false) :
    ∀ (l : List ActionModel) (i : Nat) (acc : List ActionResult),
      i + l.length = n →
      multiActLoop env c cached n l i acc =
        .ok (match firstAbortIdx env c cached l i with
          | some k => acc ++ ((List.range' i (k - i)).map env.act
              ++ [multiActAbortResult k n])
          | none => acc ++ (List.range' i l.length).map env.act) := by
  intro l
  induction l with
  | nil =>
    intro i acc _
    simp [multiActLoop, firstAbortIdx]
  | cons a rest ih =>
    intro i acc hlen
    unfold multiActLoop firstAbortIdx
    by_cases hst : staleTrigger env c cached a i = true
    · rw [if_pos hst, if_pos hst]
      dsimp only
      rw [Nat.sub_self]
      simp [List.range']
    · rw [if_neg hst, if_neg hst]
      rw [hpause i]
      simp only [Bool.false_eq_true, if_false]
      simp only [hdone i, herr i, Bool.false_or]
      by_cases hn : i = n - 1
      · have hrest : rest = [] := by
          cases rest with
          | nil => rfl
          | cons b rb =>
            exfalso
            simp only [List.length_cons] at hlen
            omega
        subst hrest
        have hbeq : (i == n - 1) = true := by simp [hn]
        rw [hbeq]
        simp only [if_true]
        simp [firstAbortIdx, List.range']
      · have hbeq : (i == n - 1) = false := by simp [hn]
        rw [hbeq]
        simp only [Bool.false_eq_true, if_false]
        rw [ih (i + 1) (acc ++ [env.act i])
          (by simp only [List.length_cons] at hlen ⊢; omega)]
        cases hfa : firstAbortIdx env c cached rest (i + 1) with
        | some k =>
          have hik : i + 1 ≤ k := firstAbortIdx_ge env c cached rest (i + 1) k hfa
          dsimp only
          congr 1
          have hr : List.range' i (k - i) = i :: List.range' (i + 1) (k - (i + 1)) := by
            have hki : k - i = (k - (i + 1)) + 1 := by omega
            rw [hki, List.range'_succ]
          rw [hr]
          simp
        | none =>
          dsimp only
          congr 1
          have hr : List.range' i (rest.length + 1)
              = i :: List.range' (i + 1) rest.length := List.range'_succ _ _ _
          simp only [List.length_cons, hr]
          simp

/-! ## Claim theorems: agent step engine -/

/-- Claim C1 (amended): with staleness checking enabled, and when no
pause fires and no controller result is done or carries an error,
`multiAct` aborts the remaining actions exactly when some action at a
position `k > 0` references an element index while the hash set
recomputed before it is not a subset of the cached set; it then
records the results of the `k` executed actions followed by exactly
one abort result whose message cites the number of already executed
actions out of the list length (for a two-action list aborting before
the second action: "action 1 / 2", not "action 2/2"). -/
theorem claim_C1_staleness_abort (env : MultiActEnv) (actions : List ActionModel)
    (hpause : ∀ i, env.pausedAt i = false)
    (hdone : ∀ i, jsTruthyBool (env.act i).isDone = false)
    (herr : ∀ i, jsTruthyStr (env.act i).error = false) :
    multiAct env actions true =
      .ok (match firstAbortIdx env true (pathHashes env.cachedSelectorMap) actions 0 with
        | some k => (List.range k).map env.act ++ [multiActAbortResult k actions.length]
        | none => (List.range actions.length).map env.act) := by
  unfold multiAct
  rw [multiActLoop_eq env true (pathHashes env.cachedSelectorMap) actions.length
    hpause hdone herr actions 0 [] (by simp)]
  cases firstAbortIdx env true (pathHashes env.cachedSelectorMap) actions 0 with
  | none => simp [List.range_eq_range']
  | some k => simp [List.range_eq_range']

/-- Counterexample for C1 as stated: in the claim's own scenario
(cached hashes A,B,C; hashes A,B,C,D before the second action) the
recorded abort message is "Something new appeared after action 1 / 2";
it does not cite "2/2". -/
theorem claim_C1_staleness_abort_counterexample :
    multiAct envC1 actionsC1 true = .ok [envC1.act 0, multiActAbortResult 1 2] ∧
    (multiActAbortResult 1 2).extractedContent
      = some "Something new appeared after action 1 / 2" ∧
    containsSub "2/2" "Something new appeared after action 1 / 2" = false ∧
    containsSub "action 1 / 2" "Something new appeared after action 1 / 2" = true := by
  refine ⟨rfl, rfl, by decide, by decide⟩

/-- Witness for C1: the characterization applied to the concrete
two-action staleness scenario. -/
theorem claim_C1_staleness_abort_witness :
    multiAct envC1w actionsC1w true = .ok [envC1w.act 0, multiActAbortResult 1 2] := by
  have h := claim_C1_staleness_abort envC1w actionsC1w
    (fun _ => rfl) (fun _ => rfl) (fun _ => rfl)
  rw [h]
  rfl

/-- Claim C7 (amended): a step interrupted by cooperative cancellation
records the single explanatory memory-included result as the last
result and leaves `consecutiveFailures` unchanged; `nSteps` is
unchanged when the cancellation is detected at the checkpoint after
the snapshot or during the model call, but a cancellation detected at
the checkpoint after the model call (or inside the action loop) occurs
after `nSteps` has already been incremented. -/
theorem claim_C7_cancellation (env : StepEnv) (s : AgentState) :
    pausedInterruptResult.includeInMemory = true ∧
    (raiseIfStoppedOrPaused env.checkpointAfterSnapshot s = true →
      step env s = { s with lastResult := [pausedInterruptResult] }) ∧
    (raiseIfStoppedOrPaused env.checkpointAfterSnapshot s = false →
      env.modelResult = .error "Interrupted" →
      step env s = { s with lastResult := [pausedInterruptResult] }) ∧
    (∀ out, raiseIfStoppedOrPaused env.checkpointAfterSnapshot s = false →
      env.modelResult = .ok out →
      raiseIfStoppedOrPaused env.checkpointAfterModel
        { s with nSteps := s.nSteps + 1 } = true →
      step env s =
        { s with nSteps := s.nSteps + 1, lastResult := [pausedInterruptResult] }) ∧
    (∀ out, raiseIfStoppedOrPaused env.checkpointAfterSnapshot s = false →
      env.modelResult = .ok out →
      raiseIfStoppedOrPaused env.checkpointAfterModel
        { s with nSteps := s.nSteps + 1 } = false →
      multiAct env.multiEnv out.action true = .error () →
      step env s =
        { s with nSteps := s.nSteps + 1, lastResult := [pausedInterruptResult] }) := by
  refine ⟨rfl, ?_, ?_, ?_, ?_⟩
  · intro h1
    unfold step
    rw [h1]
    simp
  · intro h1 h2
    unfold step
    rw [h1]
    simp only [Bool.false_eq_true, if_false]
    rw [h2]
    simp
  · intro out h1 h2 h3
    unfold step
    rw [h1]
    simp only [Bool.false_eq_true, if_false]
    rw [h2]
    dsimp only
    rw [h3]
    simp
  · intro out h1 h2 h3 h4
    unfold step
    rw [h1]
    simp only [Bool.false_eq_true, if_false]
    rw [h2]
    dsimp only
    rw [h3]
    simp only [Bool.false_eq_true, if_false]
    rw [h4]

/-- Counterexample for C7 as stated: a cancellation detected at the
checkpoint after the model call swallows the interrupt (memory-included
result, failure counter untouched) but leaves the step counter
advanced from 0 to 1, contradicting "does not advance nSteps". -/
theorem claim_C7_cancellation_counterexample :
    (step envC7 sC7).lastResult = [pausedInterruptResult] ∧
    pausedInterruptResult.includeInMemory = true ∧
    (step envC7 sC7).consecutiveFailures = sC7.consecutiveFailures ∧
    sC7.nSteps = 0 ∧
    (step envC7 sC7).nSteps = 1 := by
  refine ⟨rfl, rfl, rfl, rfl, rfl⟩

/-- Witness for C7: a cancellation at the checkpoint right after the
snapshot, where the state is unchanged except for the recorded
result. -/
theorem claim_C7_cancellation_witness :
    step envC7w sC7w = { sC7w with lastResult := [pausedInterruptResult] } := by
  have h := claim_C7_cancellation envC7w sC7w
  exact h.2.1 rfl

/-- Claim C8: for every successfully parsed model output the action
list is truncated to the first `maxActionsPerStep` entries without an
error, and a list within the maximum is returned unchanged. -/
theorem claim_C8_action_cap (maxActionsPerStep : Nat) (p : AgentOutput) :
    getNextActionPost maxActionsPerStep (some p)
      = .ok { p with action := p.action.take maxActionsPerStep } ∧
    (p.action.length ≤ maxActionsPerStep →
      getNextActionPost maxActionsPerStep (some p) = .ok p) := by
  constructor
  · unfold getNextActionPost
    dsimp only
    by_cases hl : p.action.length > maxActionsPerStep
    · rw [if_pos hl]
    · rw [if_neg hl]
      have ht : p.action.take maxActionsPerStep = p.action :=
        List.take_of_length_le (by omega)
      rw [ht]
  · intro hle
    unfold getNextActionPost
    dsimp only
    rw [if_neg (by omega)]

/-- Witness for C8: a three-action output capped at two, and a
one-action output left unchanged under a cap of three. -/
theorem claim_C8_action_cap_witness :
    getNextActionPost 2 (some ⟨[⟨some 1⟩, ⟨some 2⟩, ⟨none⟩]⟩)
      = .ok ⟨[⟨some 1⟩, ⟨some 2⟩]⟩ ∧
    getNextActionPost 3 (some ⟨[⟨some 1⟩]⟩) = .ok ⟨[⟨some 1⟩]⟩ := by
  constructor
  · have h := (claim_C8_action_cap 2 ⟨[⟨some 1⟩, ⟨some 2⟩, ⟨none⟩]⟩).1
    rw [h]
    rfl
  · exact (claim_C8_action_cap 3 ⟨[⟨some 1⟩]⟩).2 (by decide)

/-- Claim C9: the staleness-abort result carries extracted content and
the memory flag but no error and no done flag, and a step whose action
sequence is aborted by staleness (multiAct returning normally)
completes the step body, records the results, and resets
`consecutiveFailures` to 0. -/
theorem claim_C9_abort_result_benign (i n : Nat) (env : StepEnv)
    (s : AgentState) (out : AgentOutput) (rs : List ActionResult)
    (h1 : raiseIfStoppedOrPaused env.checkpointAfterSnapshot s = false)
    (h2 : env.modelResult = .ok out)
    (h3 : raiseIfStoppedOrPaused env.checkpointAfterModel
      { s with nSteps := s.nSteps + 1 } = false)
    (h4 : multiAct env.multiEnv out.action true = .ok rs) :
    (multiActAbortResult i n).error = none ∧
    (multiActAbortResult i n).isDone = some false ∧
    (multiActAbortResult i n).includeInMemory = true ∧
    ((multiActAbortResult i n).extractedContent).isSome = true ∧
    (step env s).consecutiveFailures = 0 ∧
    (step env s).lastResult = rs := by
  have hstep : step env s =
      { s with nSteps := s.nSteps + 1, lastResult := rs, consecutiveFailures := 0 } := by
    unfold step
    rw [h1]
    simp only [Bool.false_eq_true, if_false]
    rw [h2]
    dsimp only
    rw [h3]
    simp only [Bool.false_eq_true, if_false]
    rw [h4]
  rw [hstep]
  exact ⟨rfl, rfl, rfl, rfl, rfl, rfl⟩

/-- Witness for C9: a concrete step whose two-action sequence is
aborted by staleness before the second action; the step still resets
the failure counter. -/
theorem claim_C9_abort_result_benign_witness :
    (multiActAbortResult 1 2).error = none ∧
    (multiActAbortResult 1 2).isDone = some false ∧
    (multiActAbortResult 1 2).includeInMemory = true ∧
    ((multiActAbortResult 1 2).extractedContent).isSome = true ∧
    (step envC9 sC9).consecutiveFailures = 0 ∧
    (step envC9 sC9).lastResult
      = [multiEnvC9.act 0, multiActAbortResult 1 2] :=
  claim_C9_abort_result_benign 1 2 envC9 sC9 ⟨[⟨some 5⟩, ⟨some 7⟩]⟩
    [multiEnvC9.act 0, multiActAbortResult 1 2]
    rfl rfl rfl rfl

/-! ## Helper lemmas: association-list updates and child wiring -/

theorem assocGet_assocSet_self {α : Type} (l : List (String × α))
    (k : String) (v : α) : assocGet (assocSet l k v) k = some v := by
  induction l with
  | nil => simp [assocGet, assocSet]
  | cons p rest ih =>
    cases p with
    | mk k' v' =>
      unfold assocSet
      by_cases hk : k' = k
      · rw [if_pos hk]
        simp [assocGet]
      · rw [if_neg hk]
        unfold assocGet at ih ⊢
        simp only [List.find?_cons]
        have : (decide (k' = k)) = false := by simp [hk]
        rw [this]
        exact ih

theorem assocGet_assocSet_ne {α : Type} (l : List (String × α))
    (k k' : String) (v : α) (h : k' ≠ k) :
    assocGet (assocSet l k v) k' = assocGet l k' := by
  induction l with
  | nil =>
    simp [assocGet, assocSet]
    intro he
    exact absurd he.symm h
  | cons p rest ih =>
    cases p with
    | mk k0 v0 =>
      unfold assocSet
      by_cases hk : k0 = k
      · rw [if_pos hk]
        unfold assocGet
        simp only [List.find?_cons]
        have h1 : (decide (k = k')) = false := by simp; exact fun he => h he.symm
        have h2 : (decide (k0 = k')) = false := by
          simp
          intro he
          exact h (by rw [← he, hk])
        rw [h1, h2]
      · rw [if_neg hk]
        unfold assocGet at ih ⊢
        simp only [List.find?_cons]
        cases hd : decide (k0 = k') with
        | true => rfl
        | false => exact ih

theorem assocGet_assocSet_isSome {α : Type} (l : List (String × α))
    (k x : String) (v : α) (hk : (assocGet l k).isSome = true) :
    (assocGet (assocSet l k v) x).isSome = (assocGet l x).isSome := by
  by_cases hx : x = k
  · subst hx
    rw [assocGet_assocSet_self]
    rw [Option.isSome_iff_exists] at hk
    obtain ⟨w, hw⟩ := hk
    rw [hw]
    rfl
  · rw [assocGet_assocSet_ne l k x v hx]

theorem wireChildren_cons_none (parentId d : String) (rest : List String)
    (nm : List (String × DNode)) (hd : assocGet nm d = none) :
    wireChildren nm parentId (d :: rest) = wireChildren nm parentId rest := by
  rw [wireChildren.eq_def]
  dsimp only
  rw [hd]

theorem wireChildren_cons_text (parentId d : String) (rest : List String)
    (nm : List (String × DNode)) (t : DTextNode)
    (hd : assocGet nm d = some (.text t)) :
    wireChildren nm parentId (d :: rest) =
      ((wireChildren (assocSet nm d (.text { t with parent := some parentId }))
          parentId rest).1,
       d :: (wireChildren (assocSet nm d (.text { t with parent := some parentId }))
          parentId rest).2) := by
  rw [wireChildren.eq_def]
  dsimp only
  rw [hd]

theorem wireChildren_cons_elem (parentId d : String) (rest : List String)
    (nm : List (String × DNode)) (e : DElementNode)
    (hd : assocGet nm d = some (.elem e)) :
    wireChildren nm parentId (d :: rest) =
      ((wireChildren nm parentId rest).1,
       d :: (wireChildren nm parentId rest).2) := by
  rw [wireChildren.eq_def]
  dsimp only
  rw [hd]

/-- Claim C6 (amended): for every node map, parent id and child-id
list, the wiring loop of `constructDomTree` resolves exactly the child
ids present in the node map built so far into the children list (in
order, absent ids skipped silently), and it sets the parent
back-reference to the wiring element only for text-node children —
element children and absent ids leave the map unchanged at their
key. -/
theorem claim_C6_child_wiring (parentId : String) :
    ∀ (childIds : List String) (nm : List (String × DNode)),
      (wireChildren nm parentId childIds).2
        = childIds.filter (fun c => (assocGet nm c).isSome) ∧
      ∀ c : String,
        assocGet (wireChildren nm parentId childIds).1 c =
          (if c ∈ childIds then
            match assocGet nm c with
            | some (.text t) => some (.text { t with parent := some parentId })
            | other => other
           else assocGet nm c) := by
  intro childIds
  induction childIds with
  | nil =>
    intro nm
    refine ⟨by simp [wireChildren], ?_⟩
    intro c
    simp [wireChildren]
  | cons d rest ih =>
    intro nm
    cases hd : assocGet nm d with
    | none =>
      rw [wireChildren_cons_none parentId d rest nm hd]
      obtain ⟨ih1, ih2⟩ := ih nm
      refine ⟨?_, ?_⟩
      · rw [ih1, List.filter_cons]
        simp [hd]
      · intro c
        rw [ih2 c]
        by_cases hc : c ∈ rest
        · rw [if_pos hc, if_pos (by simp [hc])]
        · rw [if_neg hc]
          by_cases hcd : c = d
          · subst hcd
            rw [if_pos (by simp), hd]
          · rw [if_neg (by simp [hcd, hc])]
    | some node =>
      cases node with
      | text t =>
        rw [wireChildren_cons_text parentId d rest nm t hd]
        dsimp only
        obtain ⟨ih1, ih2⟩ :=
          ih (assocSet nm d (.text { t with parent := some parentId }))
        have hpres : ∀ x,
            (assocGet (assocSet nm d (.text { t with parent := some parentId })) x).isSome
              = (assocGet nm x).isSome := by
          intro x
          exact assocGet_assocSet_isSome nm d x _ (by rw [hd]; rfl)
        refine ⟨?_, ?_⟩
        · rw [ih1, List.filter_cons]
          simp only [hd, Option.isSome_some, if_true]
          congr 1
          exact List.filter_congr (fun x _ => hpres x)
        · intro c
          rw [ih2 c]
          by_cases hcd : c = d
          · subst hcd
            by_cases hc : c ∈ rest
            · rw [if_pos hc, assocGet_assocSet_self, if_pos (by simp), hd]
            · rw [if_neg hc, assocGet_assocSet_self, if_pos (by simp), hd]
          · rw [assocGet_assocSet_ne nm d c _ hcd]
            by_cases hc : c ∈ rest
            · rw [if_pos hc, if_pos (by simp [hc])]
            · rw [if_neg hc, if_neg (by simp [hcd, hc])]
      | elem e =>
        rw [wireChildren_cons_elem parentId d rest nm e hd]
        dsimp only
        obtain ⟨ih1, ih2⟩ := ih nm
        refine ⟨?_, ?_⟩
        · rw [ih1, List.filter_cons]
          simp [hd]
        · intro c
          rw [ih2 c]
          by_cases hc : c ∈ rest
          · rw [if_pos hc, if_pos (by simp [hc])]
          · rw [if_neg hc]
            by_cases hcd : c = d
            · subst hcd
              rw [if_pos (by simp), hd]
            · rw [if_neg (by simp [hcd, hc])]

/-- Counterexample for C6 as stated: in the 2-node bottom-up map the
button child is resolved into the div's children array, but its parent
back-reference is left unset (`none`) rather than pointing at the div
— the builder sets parent back-references only on text-node
children. -/
theorem claim_C6_child_wiring_counterexample :
    ((constructDomTree mapC6 "2").toOption.bind
      (fun r => assocGet r.nodeMap "2"))
      = some (.elem ⟨"div", [], ["1"], true, none, none⟩) ∧
    ((constructDomTree mapC6 "2").toOption.bind
      (fun r => assocGet r.nodeMap "1"))
      = some (.elem ⟨"button", [], [], true, some 0, none⟩) := ⟨rfl, rfl⟩

/-- Claim C5 (amended): on the 3-node flat map (div root, button with
highlight index 0, visible text "Go") the builder produces the selector
map sending "0" to the button node, and the serializer emits exactly
the single line `[0]<button Go/>` — the source builds the line as
`"[" + index + "]<" + tag + " " + text + "/>"`, not
`[0]<button>Go</>`. -/
theorem claim_C5_example_serialization :
    (constructDomTree mapC5 "1").toOption.map (fun r => r.selectorMap)
      = some [("0", "2")] ∧
    (constructDomTree mapC5 "1").toOption.map
      (fun r => clickableElementsToString r.nodeMap r.rootId none 10)
      = some "[0]<button Go/>" := ⟨rfl, rfl⟩

/-- Counterexample for C5 as stated: the serializer output on that
tree is "[0]<button Go/>", which differs from the claimed exact line
"[0]<button>Go</>". -/
theorem claim_C5_example_serialization_counterexample :
    (constructDomTree mapC5 "1").toOption.map
      (fun r => clickableElementsToString r.nodeMap r.rootId none 10)
      ≠ some "[0]<button>Go</>" := by
  intro h
  have heval : (constructDomTree mapC5 "1").toOption.map
      (fun r => clickableElementsToString r.nodeMap r.rootId none 10)
      = some "[0]<button Go/>" := rfl
  rw [heval] at h
  exact absurd h (by decide)

end BrowserUse
